import Mathlib

/-!
Verification of the fair-competition compliance-review prototype
(`server.js` + `script.js`) against its natural-language specification.

The JavaScript is shallowly embedded: JS runtime values are modelled by
the inductive type `JSValue` (with a separate `undefined`), property
access on `null`/`undefined` raises a modelled TypeError (`Except`),
and each route/handler/DOM-callback of the source becomes a pure Lean
function over explicit state.  Browser `localStorage` is a partial map
from keys to strings, and `JSON.stringify` / `JSON.parse` are modelled
by an executable printer and (fuel-indexed) parser over the `Json`
type below.
-/

/-! ## JS runtime values (server side) -/

/-- A JavaScript runtime value.  `undefined` models `undefined`, which JS
distinguishes from `null`; numbers are modelled as integers (no claim
depends on fractional values or NaN). -/
inductive JSValue where
  | undefined : JSValue
  | null : JSValue
  | bool : Bool → JSValue
  | num : Int → JSValue
  | str : String → JSValue
  | arr : List JSValue → JSValue
  | obj : List (String × JSValue) → JSValue

/-- JS truthiness: `undefined`, `null`, `false`, `0` and `""` are falsy;
every other value (including any object or array) is truthy. -/
def truthy : JSValue → Bool
  | .undefined => false
  | .null => false
  | .bool b => b
  | .num n => n != 0
  | .str s => !s.isEmpty
  | .arr _ => true
  | .obj _ => true

/-- Look a key up in an object's field list; an absent key reads as
`undefined`, as in JS. -/
def getField : List (String × JSValue) → String → JSValue
  | [], _ => .undefined
  | (k, v) :: rest, key => if k = key then v else getField rest key

/-- Property read `v[key]` on a value already known not to be
`null`/`undefined`: objects look the key up, primitives and arrays have
none of the field names this program reads, so the read yields
`undefined`. -/
def fieldOf : JSValue → String → JSValue
  | .obj fs, key => getField fs key
  | _, _ => .undefined

/-- Property read `v.key` with JS exception behaviour: reading a
property of `null` or `undefined` throws a TypeError. -/
def jsMember (v : JSValue) (key : String) : Except String JSValue :=
  match v with
  | .null => .error "TypeError"
  | .undefined => .error "TypeError"
  | v => .ok (fieldOf v key)

/-- JS `a || b`: `a` when truthy, else `b`. -/
def jsOr (a b : JSValue) : JSValue := if truthy a then a else b

/-- The whitespace set stripped by JS `String.prototype.trim` (ASCII
whitespace plus the common Unicode space separators this model keeps). -/
def jsWhitespace (c : Char) : Bool :=
  c = ' ' || c = '\t' || c = '\n' || c = '\r' || c = '\x0b' || c = '\x0c' ||
  c = '\u00A0' || c = '\u2028' || c = '\u2029' || c = '\uFEFF'

/-- JS `s.trim()`: strip leading and trailing whitespace. -/
def jsTrim (s : String) : String :=
  String.mk (((s.data.dropWhile jsWhitespace).reverse.dropWhile jsWhitespace).reverse)

/-! ## server.js: the `/api/review` route -/

/-- The defensive normalization step of `POST /api/review`
(`server.js` lines 128–134):

```js
const response = {
  riskScore: typeof parsed.riskScore === 'number' ? parsed.riskScore : null,
  summary: parsed.summary || '',
  issues: Array.isArray(parsed.issues) ? parsed.issues : [],
  modelNote: parsed.modelNote || '',
};
```

Each property read uses `jsMember`, so a `null`/`undefined` payload
makes the step throw, exactly as in JS. -/
def normalizeResponse (parsed : JSValue) : Except String JSValue := do
  let rs ← jsMember parsed "riskScore"
  let sm ← jsMember parsed "summary"
  let iss ← jsMember parsed "issues"
  let mn ← jsMember parsed "modelNote"
  pure (.obj
    [("riskScore", match rs with | .num n => .num n | _ => .null),
     ("summary", jsOr sm (.str "")),
     ("issues", match iss with | .arr l => .arr l | _ => .arr []),
     ("modelNote", jsOr mn (.str ""))])

mutual

/-- JS template-literal coercion of a value to text (used when the
route interpolates `businessType`/`jurisdiction` into the prompt). -/
def displayJS : JSValue → String
  | .undefined => "undefined"
  | .null => "null"
  | .bool true => "true"
  | .bool false => "false"
  | .num n => toString n
  | .str s => s
  | .obj _ => "[object Object]"
  | .arr l => displayArr l

/-- `Array.prototype.toString`: elements joined by `","`, with `null`
and `undefined` elements rendered as empty text. -/
def displayArr : List JSValue → String
  | [] => ""
  | [e] => displayElem e
  | e :: rest => displayElem e ++ "," ++ displayArr rest

/-- One array element under `Array.prototype.toString`. -/
def displayElem : JSValue → String
  | .null => ""
  | .undefined => ""
  | v => displayJS v

end

/-- `buildPrompt` (`server.js` lines 83–99): the instruction block sent
to the model, interpolating business type, jurisdiction and document
text into the fixed Chinese template. -/
def buildPrompt (businessType jurisdiction : JSValue) (content : String) : String :=
  "\n你是一名熟悉反垄断法和反不正当竞争法的合规顾问，需要对以下商业安排进行公平竞争合规审查。请用中文回答。\n\n【业务场景类型】"
    ++ displayJS businessType
    ++ "\n【主要适用法域】" ++ displayJS jurisdiction
    ++ "\n【文本内容】\n" ++ content
    ++ "\n\n请给出结构化输出（JSON），字段包括：\nriskScore：0-100 的整数，分数越高表示竞争法风险越大；\nsummary：对整体风险的简短总结（2-4 句话）；\nissues：数组，每个元素包含 title（风险点标题）、level（低/中/高）、description（风险点说明）、suggestion（整改建议）、lawReference（可能涉及的法律条款或监管指引）；\nmodelNote：对模型分析局限性的简短说明。\n\n只输出 JSON，不要输出其他解释文字。"

/-- `content` passes the route's validation exactly when it is a
non-empty string (the source rejects on
`!content || typeof content !== 'string'`). -/
def validContent : JSValue → Bool
  | .str s => !s.isEmpty
  | _ => false

/-- The `content` field as destructured by
`const { content } = req.body || {};`. -/
def contentOf (reqBody : JSValue) : JSValue :=
  fieldOf (if truthy reqBody then reqBody else .obj []) "content"

/-! ## JSON text: `JSON.stringify` / `JSON.parse`

`script.js` persists the project collection with
`JSON.stringify(projects)` and reloads it with `JSON.parse(raw)`
(lines 10–23); the server parses textual model replies the same way.
`Json` is the type of JSON-representable values (no `undefined`),
printed and parsed below.  Numbers are modelled as integers — every
number this program stores or receives is integral — and fractional or
exponent literals are outside the model. -/

inductive Json where
  | null : Json
  | bool : Bool → Json
  | num : Int → Json
  | str : String → Json
  | arr : List Json → Json
  | obj : List (String × Json) → Json

/-- The decimal digit character for `n < 10`. -/
def digitChar (n : Nat) : Char := Char.ofNat (48 + n)

/-- The lowercase hexadecimal digit character for `n < 16`. -/
def hexDigitChar (n : Nat) : Char :=
  if n < 10 then Char.ofNat (48 + n) else Char.ofNat (87 + n)

/-- `JSON.stringify` escaping of one string character: quote and
backslash are escaped, the short escapes are used for the usual control
characters, any other control character becomes a lowercase
hexadecimal escape, and everything else is emitted literally. -/
def escapeChar (c : Char) : List Char :=
  if c = '"' then ['\\', '"']
  else if c = '\\' then ['\\', '\\']
  else if c = '\x08' then ['\\', 'b']
  else if c = '\t' then ['\\', 't']
  else if c = '\n' then ['\\', 'n']
  else if c = '\x0c' then ['\\', 'f']
  else if c = '\r' then ['\\', 'r']
  else if c.toNat < 32 then
    ['\\', 'u', '0', '0', hexDigitChar (c.toNat / 16), hexDigitChar (c.toNat % 16)]
  else [c]

/-- Escape every character of a string body. -/
def escapeStr (s : String) : List Char := (s.data.map escapeChar).flatten

/-- Decimal digits, most significant first; the fuel strictly bounds
the value, which shrinks by a factor of ten per step. -/
def natDigitsAux : Nat → Nat → List Char
  | 0, _ => []
  | fuel + 1, n =>
    if n < 10 then [digitChar n]
    else natDigitsAux fuel (n / 10) ++ [digitChar (n % 10)]

/-- Decimal digits of a natural number, most significant first. -/
def natDigits (n : Nat) : List Char := natDigitsAux (n + 1) n

/-- `JSON.stringify` of an integer. -/
def printInt (n : Int) : List Char :=
  if n < 0 then '-' :: natDigits n.natAbs else natDigits n.natAbs

mutual

/-- `JSON.stringify` (no indent argument, as in the source): compact
output with no whitespace, object keys in insertion order. -/
def printJ : Json → List Char
  | .num n => printInt n
  | .str s => '"' :: (escapeStr s ++ ['"'])
  | .null => "null".data
  | .bool true => "true".data
  | .bool false => "false".data
  | .arr [] => ['[', ']']
  | .arr (v :: rest) => '[' :: (printJ v ++ (printElemsTail rest ++ [']']))
  | .obj [] => ['{', '}']
  | .obj (m :: rest) => '{' :: (printMember m ++ (printMembersTail rest ++ ['}']))

/-- Remaining array elements, each preceded by a comma. -/
def printElemsTail : List Json → List Char
  | [] => []
  | v :: rest => ',' :: (printJ v ++ printElemsTail rest)

/-- One object member: quoted key, colon, value. -/
def printMember : String × Json → List Char
  | (k, v) => '"' :: (escapeStr k ++ (['"', ':'] ++ printJ v))

/-- Remaining object members, each preceded by a comma. -/
def printMembersTail : List (String × Json) → List Char
  | [] => []
  | m :: rest => ',' :: (printMember m ++ printMembersTail rest)

end

/-- The string of a printed JSON value. -/
def jsonPrint (j : Json) : String := String.mk (printJ j)

/-- JSON whitespace. -/
def isWsChar (c : Char) : Bool := c = ' ' || c = '\t' || c = '\n' || c = '\r'

/-- Skip leading JSON whitespace. -/
def skipWs (cs : List Char) : List Char := cs.dropWhile isWsChar

/-- ASCII decimal digit test. -/
def isDigitCh (c : Char) : Bool := 48 ≤ c.toNat && c.toNat ≤ 57

/-- Value of an ASCII decimal digit. -/
def digitVal (c : Char) : Nat := c.toNat - 48

/-- Value of a digit string, most significant first. -/
def natOfDigits (ds : List Char) : Nat := ds.foldl (fun a c => 10 * a + digitVal c) 0

/-- Parse a maximal run of decimal digits. -/
def parseNat (cs : List Char) : Option (Nat × List Char) :=
  let ds := cs.takeWhile isDigitCh
  if ds.isEmpty then none else some (natOfDigits ds, cs.dropWhile isDigitCh)

/-- Whether the input starts with the given character. -/
def headIs (cs : List Char) (c : Char) : Bool :=
  match cs with
  | c2 :: _ => c2 = c
  | [] => false

/-- Value of a hexadecimal digit character (either case). -/
def hexVal (c : Char) : Option Nat :=
  if 48 ≤ c.toNat ∧ c.toNat ≤ 57 then some (c.toNat - 48)
  else if 97 ≤ c.toNat ∧ c.toNat ≤ 102 then some (c.toNat - 87)
  else if 65 ≤ c.toNat ∧ c.toNat ≤ 70 then some (c.toNat - 55)
  else none

/-- Parse a JSON string body after its opening quote, returning the
decoded characters and the input after the closing quote.  The fuel
only needs to exceed the number of decoded characters; callers pass
the input length.  (A `\u` escape of a surrogate code point decodes to
a placeholder, since lone surrogates have no counterpart in Lean
strings; the printer never emits one.) -/
def parseStrAux : Nat → List Char → Option (List Char × List Char)
  | 0, _ => none
  | _ + 1, [] => none
  | fuel + 1, c :: rest =>
    if c = '"' then some ([], rest)
    else if c = '\\' then
      match rest with
      | [] => none
      | e :: r2 =>
        if e = '"' then (parseStrAux fuel r2).map (fun p => ('"' :: p.1, p.2))
        else if e = '\\' then (parseStrAux fuel r2).map (fun p => ('\\' :: p.1, p.2))
        else if e = '/' then (parseStrAux fuel r2).map (fun p => ('/' :: p.1, p.2))
        else if e = 'b' then (parseStrAux fuel r2).map (fun p => ('\x08' :: p.1, p.2))
        else if e = 't' then (parseStrAux fuel r2).map (fun p => ('\t' :: p.1, p.2))
        else if e = 'n' then (parseStrAux fuel r2).map (fun p => ('\n' :: p.1, p.2))
        else if e = 'f' then (parseStrAux fuel r2).map (fun p => ('\x0c' :: p.1, p.2))
        else if e = 'r' then (parseStrAux fuel r2).map (fun p => ('\r' :: p.1, p.2))
        else if e = 'u' then
          match r2 with
          | h1 :: h2 :: h3 :: h4 :: r3 =>
            match hexVal h1, hexVal h2, hexVal h3, hexVal h4 with
            | some a, some b, some c3, some d =>
              (parseStrAux fuel r3).map
                (fun p => (Char.ofNat (((a * 16 + b) * 16 + c3) * 16 + d) :: p.1, p.2))
            | _, _, _, _ => none
          | _ => none
        else none
    else if c.toNat < 32 then none
    else (parseStrAux fuel rest).map (fun p => (c :: p.1, p.2))

mutual

/-- Parse one JSON value (fuel bounds the nesting of recursive
entries; `jsonParse` passes enough for any input). -/
def parseVal : Nat → List Char → Option (Json × List Char)
  | 0, _ => none
  | fuel + 1, cs =>
    match skipWs cs with
    | [] => none
    | c :: rest =>
      if c = 'n' then
        match rest with
        | 'u' :: 'l' :: 'l' :: r => some (.null, r)
        | _ => none
      else if c = 't' then
        match rest with
        | 'r' :: 'u' :: 'e' :: r => some (.bool true, r)
        | _ => none
      else if c = 'f' then
        match rest with
        | 'a' :: 'l' :: 's' :: 'e' :: r => some (.bool false, r)
        | _ => none
      else if c = '"' then
        (parseStrAux (rest.length + 1) rest).map (fun p => (.str (String.mk p.1), p.2))
      else if c = '[' then
        if headIs (skipWs rest) ']' then some (.arr [], (skipWs rest).tail)
        else (parseElems fuel (skipWs rest)).map (fun p => (.arr p.1, p.2))
      else if c = '{' then
        if headIs (skipWs rest) '}' then some (.obj [], (skipWs rest).tail)
        else (parseMembers fuel (skipWs rest)).map (fun p => (.obj p.1, p.2))
      else if c = '-' then
        (parseNat rest).map (fun p => (.num (-(p.1 : Int)), p.2))
      else if isDigitCh c then
        (parseNat (c :: rest)).map (fun p => (.num (p.1 : Int), p.2))
      else none

/-- Parse the elements of a non-empty array, consuming the closing
bracket. -/
def parseElems : Nat → List Char → Option (List Json × List Char)
  | 0, _ => none
  | fuel + 1, cs =>
    match parseVal fuel cs with
    | none => none
    | some (v, r) =>
      match skipWs r with
      | ',' :: r2 => (parseElems fuel r2).map (fun p => (v :: p.1, p.2))
      | ']' :: r2 => some ([v], r2)
      | _ => none

/-- Parse the members of a non-empty object, consuming the closing
brace. -/
def parseMembers : Nat → List Char → Option (List (String × Json) × List Char)
  | 0, _ => none
  | fuel + 1, cs =>
    match skipWs cs with
    | '"' :: r =>
      match parseStrAux (r.length + 1) r with
      | none => none
      | some (kchars, r2) =>
        match skipWs r2 with
        | ':' :: r3 =>
          match parseVal fuel r3 with
          | none => none
          | some (v, r4) =>
            match skipWs r4 with
            | ',' :: r5 => (parseMembers fuel r5).map (fun p => ((String.mk kchars, v) :: p.1, p.2))
            | '}' :: r5 => some ([(String.mk kchars, v)], r5)
            | _ => none
        | _ => none
    | _ => none

end

/-- `JSON.parse`: parse one value and require only whitespace after
it.  Each nested value consumes at least one character before spending
a unit of fuel, so the input length bounds the fuel needed. -/
def jsonParse (s : String) : Option Json :=
  match parseVal (2 * s.length + 2) s.data with
  | some (v, rest) => if (skipWs rest).isEmpty then some v else none
  | none => none

mutual

/-- A parsed JSON value as a JS runtime value (parsing never yields
`undefined`). -/
def jsonToJSValue : Json → JSValue
  | .null => .null
  | .bool b => .bool b
  | .num n => .num n
  | .str s => .str s
  | .arr l => .arr (jsonListToJSValue l)
  | .obj m => .obj (jsonMembersToJSValue m)

/-- Elementwise conversion of an array body. -/
def jsonListToJSValue : List Json → List JSValue
  | [] => []
  | v :: rest => jsonToJSValue v :: jsonListToJSValue rest

/-- Memberwise conversion of an object body. -/
def jsonMembersToJSValue : List (String × Json) → List (String × JSValue)
  | [] => []
  | (k, v) :: rest => (k, jsonToJSValue v) :: jsonMembersToJSValue rest

end

/-! ## server.js: the full route -/

/-- The result of one `/api/review` request: HTTP status, JSON body,
and whether the generation backend was invoked. -/
structure ReviewResult where
  status : Nat
  body : JSValue
  backendCalled : Bool

/-- The mock `callLLM` of the source (`server.js` lines 27–71): ignores
the prompt and returns a fixed structured object. -/
def callLLM (_prompt : String) : JSValue :=
  .obj
    [("riskScore", .num 65),
     ("summary", .str "文本中包含可能限制交易对手独立自主的条款，存在排他性合作风险，需要调整不合理约束。"),
     ("issues", .arr
       [.obj
         [("title", .str "排他性合作条款"),
          ("level", .str "高"),
          ("description", .str "要求合作方在合同期内不得与其他竞争者合作，属于限制交易相对人自由选择合作伙伴的行为。"),
          ("suggestion", .str "建议删除或修改排他性条款，允许合作方与其他主体合作，或采用非独家的合作方式。"),
          ("lawReference", .str "《反垄断法》第十五条有关垄断协议的禁止性规定。")],
        .obj
         [("title", .str "不合理的违约惩罚"),
          ("level", .str "中"),
          ("description", .str "使用提高佣金、降级流量等方式作为违约惩罚，可能被视为利用优势地位实施不公平条款。"),
          ("suggestion", .str "将违约责任改为以实际损失为基础的违约金或补偿，避免滥用平台优势。"),
          ("lawReference", .str "《反不正当竞争法》第五条有关利用优势地位排除、限制竞争的规定。")]]),
     ("modelNote", .str "上述分析为模型基于公开法律文本和经验总结的结果，仅供参考，不构成法律意见。")]

/-- The tail of the route after a reply `parsed` is in hand
(`server.js` lines 128–139): normalize and answer 200, or let the
thrown TypeError reach the route's catch, which answers 500. -/
def finishReview (parsed : JSValue) : ReviewResult :=
  match normalizeResponse parsed with
  | .ok r => { status := 200, body := r, backendCalled := true }
  | .error _ => { status := 500, body := .obj [("error", .str "服务器内部错误")], backendCalled := true }

/-- `app.post('/api/review')` (`server.js` lines 102–140), with the
generation backend abstracted as a function from the prompt to its
reply (the source wires in `callLLM`).  Validation happens before any
backend call; a textual reply must parse as JSON. -/
def postApiReview (backend : String → JSValue) (reqBody : JSValue) : ReviewResult :=
  if !(validContent (contentOf reqBody)) then
    { status := 400, body := .obj [("error", .str "content 不能为空")], backendCalled := false }
  else
    match backend (buildPrompt
        (jsOr (fieldOf (if truthy reqBody then reqBody else .obj []) "businessType") (.str "general"))
        (jsOr (fieldOf (if truthy reqBody then reqBody else .obj []) "jurisdiction") (.str "cn"))
        (displayJS (contentOf reqBody))) with
    | .str s =>
      match jsonParse s with
      | none => { status := 500, body := .obj [("error", .str "解析大模型结果失败")], backendCalled := true }
      | some j => finishReview (jsonToJSValue j)
    | v => finishReview v

/-! ## script.js: data model -/

/-- A risk level, `低 < 中 < 高` (the source stores the Chinese
strings; `riskLevelStr` below recovers them). -/
inductive RiskLevel where
  | low : RiskLevel
  | mid : RiskLevel
  | high : RiskLevel
deriving DecidableEq

/-- The stored Chinese text of a risk level. -/
def riskLevelStr : RiskLevel → String
  | .low => "低"
  | .mid => "中"
  | .high => "高"

/-- The numeric order the source assigns
(`const order = { 高: 3, 中: 2, 低: 1 }`, `script.js` line 295). -/
def riskOrder : RiskLevel → Nat
  | .low => 1
  | .mid => 2
  | .high => 3

/-- A project's workflow status.  The source stores the status as a
string; these are the five values it ever compares against. -/
inductive Status where
  | DRAFT : Status
  | AI_REVIEWING : Status
  | AI_COMPLETED : Status
  | DEPT_REVIEWING : Status
  | APPROVED : Status
deriving DecidableEq

/-- The stored text of a status. -/
def statusStr : Status → String
  | .DRAFT => "DRAFT"
  | .AI_REVIEWING => "AI_REVIEWING"
  | .AI_COMPLETED => "AI_COMPLETED"
  | .DEPT_REVIEWING => "DEPT_REVIEWING"
  | .APPROVED => "APPROVED"

/-- A user's decision on one finding (`{ type, desc }`,
`script.js` line 322). -/
structure Disposition where
  type : String
  desc : String
deriving DecidableEq

/-- One finding produced by the demonstration generator
(`script.js` lines 284–292), field order as in the object literal. -/
structure RiskItem where
  id : String
  category : String
  suspectedText : String
  analysis : String
  riskLevel : RiskLevel
  suggestedAdjustment : String
  lawReference : String
deriving DecidableEq

/-- The structured result of one review cycle
(`script.js` lines 300–304).  `actions` is a JS object keyed by risk
id, modelled as an insertion-ordered association list with the same
key order `JSON.stringify` would emit. -/
structure AIReview where
  overallRisk : RiskLevel
  riskItems : List RiskItem
  actions : List (String × Disposition)
deriving DecidableEq

/-- One compliance-review case (`script.js` lines 101–115), field
order as in the creation literal. -/
structure Project where
  id : String
  projectName : String
  policyTitle : String
  org : String
  draftType : String
  scope : String
  releaseDate : String
  isSecret : Bool
  applyException : Bool
  createdAt : String
  updatedAt : String
  status : Status
  aiReview : Option AIReview
deriving DecidableEq

/-- `projects.find((p) => p.id === id)`. -/
def findProject (ps : List Project) (pid : String) : Option Project :=
  ps.find? (fun p => p.id = pid)

/-- Mutating the project `find` located and writing the collection
back: exactly the first entry whose id matches is replaced by its
update; when no entry matches, the collection is unchanged (the
source's early `return`). -/
def updateFirst (ps : List Project) (pid : String) (f : Project → Project) : List Project :=
  match ps with
  | [] => []
  | p :: rest => if p.id = pid then f p :: rest else p :: updateFirst rest pid f

/-! ## script.js: operations -/

/-- The creation form's raw field values (`script.js` lines 86–93). -/
structure CreateForm where
  projectName : String
  policyTitle : String
  org : String
  draftType : String
  scope : String
  releaseDate : String
  isSecret : Bool
  applyException : Bool

/-- `handleCreateProject` (`script.js` lines 82–120): trim the text
fields, reject when the trimmed project name or policy title is empty
(alert, no state change), otherwise append a fresh `DRAFT` project
with `aiReview: null`.  `now` models `formatDate(new Date())` and
`newId` models `generateId('P')`; the second component collects the
alerts shown. -/
def handleCreateProject (form : CreateForm) (now newId : String) (ps : List Project) :
    List Project × List String :=
  let projectName := jsTrim form.projectName
  let policyTitle := jsTrim form.policyTitle
  if projectName = "" ∨ policyTitle = "" then
    (ps, ["请填写完整的项目名称和文件名称"])
  else
    (ps ++ [{ id := newId, projectName := projectName, policyTitle := policyTitle,
              org := jsTrim form.org, draftType := form.draftType, scope := jsTrim form.scope,
              releaseDate := form.releaseDate, isSecret := form.isSecret,
              applyException := form.applyException, createdAt := now, updatedAt := now,
              status := .DRAFT, aiReview := none }], [])

/-- The synchronous half of `startAIReview` (`script.js` lines
219–227): mark the found project `AI_REVIEWING` and stamp
`updatedAt`; nothing happens when the id is unknown. -/
def startAIReviewBegin (ps : List Project) (pid now : String) : List Project :=
  updateFirst ps pid (fun p => { p with status := .AI_REVIEWING, updatedAt := now })

/-- The delayed completion callback of `startAIReview` (`script.js`
lines 234–243): install the generated review, mark `AI_COMPLETED`,
stamp `updatedAt`. -/
def startAIReviewComplete (ps : List Project) (pid : String) (r : AIReview) (now : String) :
    List Project :=
  updateFirst ps pid (fun p => { p with aiReview := some r, status := .AI_COMPLETED, updatedAt := now })

/-- The fixed category pool of the generator (`script.js` lines 248–253). -/
def categories : List String := ["市场准入", "要素流动", "经营成本", "经营行为"]

/-- The fixed excerpt pool (`script.js` lines 255–260). -/
def sampleTexts : List String :=
  ["第八条：本地区企业享有优先采购权",
   "第三条：对外地企业收取额外保证金",
   "第五条：设定限制性行业准入条件",
   "第二条：对特定行业实行产量配额"]

/-- The fixed analysis pool (`script.js` lines 261–266). -/
def analysisSamples : List String :=
  ["可能构成地方保护或排他性措施，限制市场准入",
   "可能影响要素自由流动，涉嫌差别待遇",
   "可能提高企业经营成本，造成不公平竞争",
   "可能限制经营者的正常经营行为"]

/-- The fixed adjustment-suggestion pool (`script.js` lines 267–272). -/
def adjustmentSamples : List String :=
  ["建议删除差别待遇条款，改为统一标准",
   "建议取消额外保证金要求，实行平等准入",
   "建议完善条款表述，避免限制性措施",
   "建议按照国家相关法规调整"]

/-- The fixed law-reference pool (`script.js` lines 273–278). -/
def lawRefSamples : List String :=
  ["《反不正当竞争法》第八条",
   "《行政许可法》第十五条",
   "《公平竞争审查办法》第二条",
   "《市场主体登记管理条例》第十条"]

/-- The risk-level cycle `['高', '中', '低']` (`script.js` line 254). -/
def riskLevelsCycle : List RiskLevel := [.high, .mid, .low]

/-- The overall-risk computation of the generator (`script.js` lines
294–299): start from `低` and keep the strictly higher level while
walking the items. -/
def computeOverallRisk (items : List RiskItem) : RiskLevel :=
  items.foldl (fun highest it =>
    if riskOrder highest < riskOrder it.riskLevel then it.riskLevel else highest) .low

/-- `createDummyAIResults` (`script.js` lines 247–305).  The random
draws are inputs: `r` stands for `Math.floor(Math.random() * 3)` (so
the item count is `r % 3 + 2`), `pick i` for the draw
`Math.floor(Math.random() * categories.length)` of item `i` (reduced
`% 4`, the pool size), and `mkId i` for that item's `generateId('R')`.
Note the excerpt is indexed by the item position `i`, while the other
pools share the category index. -/
def createDummyAIResults (r : Nat) (pick : Nat → Nat) (mkId : Nat → String) : AIReview :=
  let numItems := r % 3 + 2
  let items := (List.range numItems).map (fun i =>
    let idx := pick i % 4
    { id := mkId i
      category := categories.getD idx ""
      suspectedText := sampleTexts.getD (i % 4) ""
      analysis := analysisSamples.getD idx ""
      riskLevel := riskLevelsCycle.getD (i % 3) .low
      suggestedAdjustment := adjustmentSamples.getD idx ""
      lawReference := lawRefSamples.getD idx "" : RiskItem })
  { overallRisk := computeOverallRisk items, riskItems := items, actions := [] }

/-- Assignment `actions[riskId] = {...}` on a JS object: an existing
key is overwritten in place, a new key is appended. -/
def setKey (l : List (String × Disposition)) (k : String) (v : Disposition) :
    List (String × Disposition) :=
  match l with
  | [] => [(k, v)]
  | (k1, v1) :: rest => if k1 = k then (k, v) :: rest else (k1, v1) :: setKey rest k v

/-- Reading `actions[riskId]` back. -/
def lookupAction (l : List (String × Disposition)) (k : String) : Option Disposition :=
  match l with
  | [] => none
  | (k1, v1) :: rest => if k1 = k then some v1 else lookupAction rest k

/-- One row of the review-action form: the select's `data-risk-id` and
value (empty when `--选择处理--` is left selected), and the raw text of
the matching description textarea (empty when it is absent). -/
structure ActionInput where
  riskId : String
  type : String
  desc : String

/-- The loop over `select[data-risk-id]` in `saveRiskActions`
(`script.js` lines 313–324): rows whose select is truthy (non-empty)
write `{ type, desc: desc.trim() }` for their risk id; rows left unset
write nothing. -/
def mergeActions (acts : List (String × Disposition)) (form : List ActionInput) :
    List (String × Disposition) :=
  form.foldl (fun a inp =>
    if inp.type = "" then a
    else setKey a inp.riskId { type := inp.type, desc := jsTrim inp.desc }) acts

/-- `saveRiskActions` (`script.js` lines 308–329): silently no-op when
the id is unknown or the project has no review; otherwise merge the
form into the review's `actions`, stamp `updatedAt`, and alert. -/
def saveRiskActions (ps : List Project) (pid : String) (form : List ActionInput) (now : String) :
    List Project × List String :=
  match findProject ps pid with
  | none => (ps, [])
  | some p =>
    match p.aiReview with
    | none => (ps, [])
    | some r =>
      (updateFirst ps pid (fun q =>
        { q with aiReview := some { r with actions := mergeActions r.actions form },
                 updatedAt := now }),
       ["已保存处理意见"])

/-- `submitForDepartmentReview` (`script.js` lines 332–346): silently
no-op when the id is unknown; alert and keep everything unchanged when
`aiReview` is null; otherwise set `DEPT_REVIEWING`, stamp `updatedAt`
and alert. -/
def submitForDepartmentReview (ps : List Project) (pid now : String) :
    List Project × List String :=
  match findProject ps pid with
  | none => (ps, [])
  | some p =>
    match p.aiReview with
    | none => (ps, ["请先完成 AI 审查"])
    | some _ =>
      (updateFirst ps pid (fun q => { q with status := .DEPT_REVIEWING, updatedAt := now }),
       ["已提交至本单位审核人"])

/-- The lookup-and-alert skeleton of `displayProjectDetail`
(`script.js` lines 123–132): a missing or empty `id` query parameter
returns silently, an unknown id alerts `未找到该项目`, a found project
renders (no alert).  The DOM rendering itself carries no state and is
not modelled. -/
def displayProjectDetailMsg (ps : List Project) (id : Option String) : List String :=
  match id with
  | none => []
  | some i =>
    if i = "" then []
    else
      match findProject ps i with
      | none => ["未找到该项目"]
      | some _ => []

/-! ## script.js: persistence -/

/-- One disposition as `JSON.stringify` sees it (insertion order
`type`, `desc`). -/
def dispositionToJson (d : Disposition) : Json :=
  .obj [("type", .str d.type), ("desc", .str d.desc)]

/-- One finding as stored (insertion order of the literal at
`script.js` lines 284–292). -/
def riskItemToJson (it : RiskItem) : Json :=
  .obj
    [("id", .str it.id),
     ("category", .str it.category),
     ("suspectedText", .str it.suspectedText),
     ("analysis", .str it.analysis),
     ("riskLevel", .str (riskLevelStr it.riskLevel)),
     ("suggestedAdjustment", .str it.suggestedAdjustment),
     ("lawReference", .str it.lawReference)]

/-- One review as stored (insertion order of the literal at
`script.js` lines 300–304). -/
def aiReviewToJson (r : AIReview) : Json :=
  .obj
    [("overallRisk", .str (riskLevelStr r.overallRisk)),
     ("riskItems", .arr (r.riskItems.map riskItemToJson)),
     ("actions", .obj (r.actions.map (fun kv => (kv.1, dispositionToJson kv.2))))]

/-- One project record as stored (insertion order of the literal at
`script.js` lines 101–115; later assignments only overwrite existing
keys, so the order never changes). -/
def projectToJson (p : Project) : Json :=
  .obj
    [("id", .str p.id),
     ("projectName", .str p.projectName),
     ("policyTitle", .str p.policyTitle),
     ("org", .str p.org),
     ("draftType", .str p.draftType),
     ("scope", .str p.scope),
     ("releaseDate", .str p.releaseDate),
     ("isSecret", .bool p.isSecret),
     ("applyException", .bool p.applyException),
     ("createdAt", .str p.createdAt),
     ("updatedAt", .str p.updatedAt),
     ("status", .str (statusStr p.status)),
     ("aiReview", match p.aiReview with | none => .null | some r => aiReviewToJson r)]

/-- Browser `localStorage`: a partial map from keys to strings
(`getItem` yields `null` for an absent key). -/
def Store : Type := String → Option String

/-- `saveProjects` (`script.js` lines 21–23):
`localStorage.setItem('ai_projects', JSON.stringify(projects))`. -/
def saveProjects (st : Store) (ps : List Project) : Store :=
  fun k => if k = "ai_projects" then some (jsonPrint (.arr (ps.map projectToJson))) else st k

/-- `getProjects` (`script.js` lines 10–18): read the raw value; a
null or empty raw is the ternary's `[]` branch; otherwise
`JSON.parse(raw)` is returned as-is, with a parse failure caught and
turned into `[]`.  Note the parse result is **not** checked to be an
array. -/
def getProjects (st : Store) : Json :=
  match st "ai_projects" with
  | none => .arr []
  | some raw =>
    if raw = "" then .arr []
    else
      match jsonParse raw with
      | some v => v
      | none => .arr []

/-! ## The documented operation steps (lifecycle reachability)

`Step s t` holds when one user-visible operation documented by the
spec can turn the stored collection `s` into `t`.  `StartReview` is
only invocable through the detail page's start button, which
`displayProjectDetail` wires up only while `project.aiReview` is null
(`script.js` lines 145–150); the completion callback fires for a
project whose review was started and is still pending
(`AI_REVIEWING`).  The generated review is left arbitrary — the
invariant does not depend on its contents. -/
inductive Step : List Project → List Project → Prop
  | create (form : CreateForm) (now newId : String) (s : List Project) :
      Step s (handleCreateProject form now newId s).1
  | startReview (s : List Project) (pid now : String) (p : Project)
      (hfind : findProject s pid = some p) (hno : p.aiReview = none) :
      Step s (startAIReviewBegin s pid now)
  | completeReview (s : List Project) (pid now : String) (p : Project) (r : AIReview)
      (hfind : findProject s pid = some p) (hst : p.status = .AI_REVIEWING) :
      Step s (startAIReviewComplete s pid r now)
  | save (s : List Project) (pid : String) (form : List ActionInput) (now : String) :
      Step s (saveRiskActions s pid form now).1
  | submit (s : List Project) (pid now : String) :
      Step s (submitForDepartmentReview s pid now).1

/-- Collections reachable from the empty store by documented
operations. -/
inductive Reachable : List Project → Prop
  | init : Reachable []
  | step {s t : List Project} : Reachable s → Step s t → Reachable t

/-- A blank finding, used as the default of positional lookups in
statements about generated reviews. -/
def blankRiskItem : RiskItem :=
  { id := "", category := "", suspectedText := "", analysis := "",
    riskLevel := .low, suggestedAdjustment := "", lawReference := "" }

/-! ## Size measures for the parser-fuel argument -/

mutual

/-- Fuel sufficient for `parseVal` on the printed form of a value. -/
def jsize : Json → Nat
  | .null => 1
  | .bool _ => 1
  | .num _ => 1
  | .str _ => 1
  | .arr l => 2 + jlistSize l
  | .obj m => 2 + jmemSize m

/-- Fuel sufficient for `parseElems` on printed elements. -/
def jlistSize : List Json → Nat
  | [] => 0
  | v :: rest => 1 + jsize v + jlistSize rest

/-- Fuel sufficient for `parseMembers` on printed members. -/
def jmemSize : List (String × Json) → Nat
  | [] => 0
  | (_, v) :: rest => 1 + jsize v + jmemSize rest

end

/-- The input does not begin with a decimal digit (so a maximal digit
run ends exactly where the printed number ends). -/
def NonDigitStart (cs : List Char) : Prop :=
  ∀ c cs2, cs = c :: cs2 → isDigitCh c = false

/-- Whether a JSON value is an array (`Array.isArray` on the parsed
value). -/
def Json.isArr : Json → Bool
  | .arr _ => true
  | _ => false

/-! # Theorems -/

/-! ## Generic character and list facts -/

theorem digitVal_digitChar (d : Nat) (h : d < 10) : digitVal (digitChar d) = d := by
  interval_cases d <;> decide

theorem isDigitCh_digitChar (d : Nat) (h : d < 10) : isDigitCh (digitChar d) = true := by
  interval_cases d <;> decide

theorem isWsChar_false_of_digit (c : Char) (h : isDigitCh c = true) : isWsChar c = false := by
  simp only [isDigitCh, Bool.and_eq_true, decide_eq_true_eq] at h
  simp only [isWsChar, Bool.or_eq_false_iff, decide_eq_false_iff_not]
  refine ⟨⟨⟨?_, ?_⟩, ?_⟩, ?_⟩ <;> (rintro rfl; revert h; decide)

theorem skipWs_cons_of_not (c : Char) (cs : List Char) (h : isWsChar c = false) :
    skipWs (c :: cs) = c :: cs := by
  simp [skipWs, List.dropWhile_cons, h]

/-! ## server.js: C1 and C4 -/

theorem jsMember_ok (p : JSValue) (hn : p ≠ JSValue.null) (hu : p ≠ JSValue.undefined)
    (k : String) : jsMember p k = .ok (fieldOf p k) := by
  cases p <;> first
    | rfl
    | exact absurd rfl hn
    | exact absurd rfl hu

/-- C1, amended.  For every upstream payload other than `null` and
`undefined` — objects of any shape, and also non-object payloads — the
normalization step of `/api/review` does not throw and produces an
object with exactly the four fields `riskScore`, `summary`, `issues`,
`modelNote`: `riskScore` is the payload's `riskScore` if numeric and
null otherwise, `summary` falls back to empty text when missing (or
otherwise falsy), `issues` falls back to the empty sequence when the
payload's `issues` is not a sequence, and `modelNote` falls back to
empty text when missing (or otherwise falsy).  (For a `null` payload
the step throws a TypeError — see the counterexample — which the
route's catch turns into a 500 reply.) -/
theorem c1_normalization_shape (p : JSValue) (hn : p ≠ JSValue.null) (hu : p ≠ JSValue.undefined) :
    normalizeResponse p = Except.ok (JSValue.obj
      [("riskScore", match fieldOf p "riskScore" with | .num n => .num n | _ => .null),
       ("summary", if truthy (fieldOf p "summary") then fieldOf p "summary" else .str ""),
       ("issues", match fieldOf p "issues" with | .arr l => .arr l | _ => .arr []),
       ("modelNote", if truthy (fieldOf p "modelNote") then fieldOf p "modelNote" else .str "")]) := by
  simp only [normalizeResponse, jsMember_ok p hn hu]
  rfl

/-- Witness for C1 at the spec's own test payload: `riskScore`
missing and `issues` a non-sequence. -/
theorem c1_witness :
    normalizeResponse (JSValue.obj [("issues", JSValue.str "oops")]) =
      Except.ok (JSValue.obj
        [("riskScore", JSValue.null), ("summary", JSValue.str ""),
         ("issues", JSValue.arr []), ("modelNote", JSValue.str "")]) :=
  c1_normalization_shape (JSValue.obj [("issues", JSValue.str "oops")])
    (fun h => JSValue.noConfusion h) (fun h => JSValue.noConfusion h)

/-- Counterexample to C1 as stated: on the payload `null` the
normalization step throws (a TypeError), so it does not hold for
"any payload value (including null)"; through the route, a backend
reply of the text `"null"` parses fine and then yields the 500
catch-all, not a normalized 200 reply. -/
theorem c1_counterexample :
    normalizeResponse JSValue.null = Except.error "TypeError" ∧
    postApiReview (fun _ => JSValue.str "null") (JSValue.obj [("content", JSValue.str "x")]) =
      { status := 500, body := JSValue.obj [("error", JSValue.str "服务器内部错误")],
        backendCalled := true } :=
  ⟨rfl, rfl⟩

theorem postApiReview_called_of_valid (backend : String → JSValue) (body : JSValue)
    (hv : validContent (contentOf body) = true) :
    (postApiReview backend body).backendCalled = true := by
  unfold postApiReview
  rw [hv]
  simp only [Bool.not_true, Bool.false_eq_true, if_false]
  split
  · split
    · rfl
    · unfold finishReview; split <;> rfl
  · unfold finishReview; split <;> rfl

/-- C4.  `/api/review` answers 400 with `content 不能为空` and skips
the backend exactly when the request's `content` is missing, empty or
not text; any request whose `content` is a non-empty string gets past
validation and reaches the backend. -/
theorem c4_content_validation (backend : String → JSValue) (body : JSValue) :
    (postApiReview backend body =
        { status := 400, body := JSValue.obj [("error", JSValue.str "content 不能为空")],
          backendCalled := false }
      ↔ validContent (contentOf body) = false) ∧
    (validContent (contentOf body) = true → (postApiReview backend body).backendCalled = true) := by
  refine ⟨⟨?_, ?_⟩, postApiReview_called_of_valid backend body⟩
  · intro h
    by_contra hv
    rw [Bool.not_eq_false] at hv
    have hc := postApiReview_called_of_valid backend body hv
    rw [h] at hc
    exact Bool.false_ne_true hc
  · intro hv
    unfold postApiReview
    rw [hv]
    rfl

/-- Witness for C4: the spec's scenario `{content: ""}` yields 400
with the backend never called. -/
theorem c4_witness :
    postApiReview callLLM (JSValue.obj [("content", JSValue.str "")]) =
      { status := 400, body := JSValue.obj [("error", JSValue.str "content 不能为空")],
        backendCalled := false } :=
  (c4_content_validation callLLM (JSValue.obj [("content", JSValue.str "")])).1.mpr rfl

/-! ## script.js: collection helpers -/

theorem updateFirst_of_find_none (s : List Project) (pid : String) (f : Project → Project)
    (h : findProject s pid = none) : updateFirst s pid f = s := by
  induction s with
  | nil => rfl
  | cons a t ih =>
    by_cases ha : a.id = pid
    · rw [findProject, List.find?_cons_of_pos _ (by simpa using ha)] at h
      exact absurd h (by simp)
    · rw [findProject, List.find?_cons_of_neg _ (by simpa using ha)] at h
      rw [updateFirst, if_neg ha, ih h]

theorem findProject_updateFirst_spec (s : List Project) (pid : String) (p : Project)
    (f : Project → Project) (hfind : findProject s pid = some p) :
    ∃ i, ∃ hi : i < s.length, s.get ⟨i, hi⟩ = p ∧ p.id = pid ∧
      (∀ j, ∀ hj : j < s.length, j < i → (s.get ⟨j, hj⟩).id ≠ pid) ∧
      updateFirst s pid f = s.set i (f p) := by
  induction s with
  | nil => simp [findProject] at hfind
  | cons a t ih =>
    by_cases ha : a.id = pid
    · rw [findProject, List.find?_cons_of_pos _ (by simpa using ha)] at hfind
      injection hfind with hfind
      subst hfind
      refine ⟨0, by simp, rfl, ha, ?_, ?_⟩
      · intro j hj hj0; omega
      · rw [updateFirst, if_pos ha]; rfl
    · rw [findProject, List.find?_cons_of_neg _ (by simpa using ha)] at hfind
      obtain ⟨i, hi, hget, hpid, hbefore, hupd⟩ := ih hfind
      refine ⟨i + 1, by simpa using Nat.succ_lt_succ hi, ?_, hpid, ?_, ?_⟩
      · simpa using hget
      · intro j hj hji
        cases j with
        | zero => simpa using ha
        | succ j2 =>
          have hj2 : j2 < t.length := by simpa using hj
          have := hbefore j2 hj2 (by omega)
          simpa using this
      · rw [updateFirst, if_neg ha, hupd]; rfl

theorem mem_updateFirst (s : List Project) (pid : String) (f : Project → Project)
    (p : Project) (hfind : findProject s pid = some p)
    (q : Project) (hq : q ∈ updateFirst s pid f) : q ∈ s ∨ q = f p := by
  induction s with
  | nil => simp [updateFirst] at hq
  | cons a t ih =>
    rw [updateFirst] at hq
    by_cases ha : a.id = pid
    · rw [findProject, List.find?_cons_of_pos _ (by simpa using ha)] at hfind
      injection hfind with hfind
      subst hfind
      rw [if_pos ha] at hq
      rcases List.mem_cons.mp hq with h1 | h1
      · exact Or.inr h1
      · exact Or.inl (List.mem_cons_of_mem a h1)
    · rw [findProject, List.find?_cons_of_neg _ (by simpa using ha)] at hfind
      rw [if_neg ha] at hq
      rcases List.mem_cons.mp hq with h1 | h1
      · exact Or.inl (h1 ▸ List.mem_cons_self a t)
      · rcases ih hfind h1 with h2 | h2
        · exact Or.inl (List.mem_cons_of_mem a h2)
        · exact Or.inr h2

/-! ## script.js: actions-map helpers -/

theorem lookupAction_setKey_self (l : List (String × Disposition)) (k : String) (v : Disposition) :
    lookupAction (setKey l k v) k = some v := by
  induction l with
  | nil => simp [setKey, lookupAction]
  | cons kv t ih =>
    rw [setKey]
    by_cases h : kv.1 = k
    · simp only [h, if_true]
      simp [lookupAction]
    · simp only [h, if_false]
      rw [lookupAction, if_neg h, ih]

theorem lookupAction_setKey_other (l : List (String × Disposition)) (k : String) (v : Disposition)
    (k2 : String) (h : k ≠ k2) : lookupAction (setKey l k v) k2 = lookupAction l k2 := by
  induction l with
  | nil => simp [setKey, lookupAction, h]
  | cons kv t ih =>
    rw [setKey]
    by_cases h1 : kv.1 = k
    · simp only [h1, if_true]
      rw [lookupAction, if_neg h, lookupAction, h1, if_neg h]
    · simp only [h1, if_false]
      rw [lookupAction, lookupAction]
      by_cases h2 : kv.1 = k2
      · simp [h2]
      · simp only [h2, if_false, ih]

theorem setKey_eq_of_lookup (l : List (String × Disposition)) (k : String) (v : Disposition)
    (h : lookupAction l k = some v) : setKey l k v = l := by
  induction l with
  | nil => simp [lookupAction] at h
  | cons kv t ih =>
    rw [lookupAction] at h
    rw [setKey]
    by_cases h1 : kv.1 = k
    · rw [if_pos h1] at h
      injection h with h
      rw [if_pos h1, ← h, ← h1]
    · rw [if_neg h1] at h
      rw [if_neg h1, ih h]

theorem mergeActions_lookup_unset (form : List ActionInput) (a : List (String × Disposition))
    (k : String) (h : ∀ inp ∈ form, inp.riskId = k → inp.type = "") :
    lookupAction (mergeActions a form) k = lookupAction a k := by
  induction form generalizing a with
  | nil => rfl
  | cons x t ih =>
    rw [mergeActions, List.foldl_cons]
    by_cases hx : x.type = ""
    · rw [if_pos hx]
      exact ih a (fun inp hin => h inp (List.mem_cons_of_mem x hin))
    · rw [if_neg hx]
      have hxk : x.riskId ≠ k := fun he => hx (h x (List.mem_cons_self x t) he)
      exact (ih _ (fun inp hin => h inp (List.mem_cons_of_mem x hin))).trans
        (lookupAction_setKey_other a x.riskId _ k hxk)

theorem mergeActions_lookup_set (form : List ActionInput) (a : List (String × Disposition))
    (hnd : (form.map ActionInput.riskId).Nodup) (inp : ActionInput) (hin : inp ∈ form)
    (ht : inp.type ≠ "") :
    lookupAction (mergeActions a form) inp.riskId =
      some { type := inp.type, desc := jsTrim inp.desc } := by
  induction form generalizing a with
  | nil => simp at hin
  | cons x t ih =>
    rw [List.map_cons, List.nodup_cons] at hnd
    rw [mergeActions, List.foldl_cons]
    rcases List.mem_cons.mp hin with he | hmem
    · subst he
      rw [if_neg ht]
      exact (mergeActions_lookup_unset t _ inp.riskId
          (fun j hj hjk => absurd (hjk ▸ List.mem_map_of_mem ActionInput.riskId hj) hnd.1)).trans
        (lookupAction_setKey_self _ _ _)
    · by_cases hx : x.type = ""
      · rw [if_pos hx]
        exact ih a hnd.2 hmem
      · rw [if_neg hx]
        exact ih _ hnd.2 hmem

theorem mergeActions_self (form : List ActionInput) (b : List (String × Disposition))
    (h : ∀ inp ∈ form, inp.type ≠ "" →
      lookupAction b inp.riskId = some { type := inp.type, desc := jsTrim inp.desc }) :
    mergeActions b form = b := by
  induction form generalizing b with
  | nil => rfl
  | cons x t ih =>
    rw [mergeActions, List.foldl_cons]
    by_cases hx : x.type = ""
    · rw [if_pos hx]
      exact ih b (fun inp hin => h inp (List.mem_cons_of_mem x hin))
    · rw [if_neg hx]
      rw [setKey_eq_of_lookup b x.riskId _ (h x (List.mem_cons_self x t) hx)]
      exact ih b (fun inp hin => h inp (List.mem_cons_of_mem x hin))

/-! ## script.js: overall-risk helper -/

theorem foldl_risk_spec (items : List RiskItem) (init : RiskLevel) :
    riskOrder init ≤ riskOrder (items.foldl (fun highest it =>
        if riskOrder highest < riskOrder it.riskLevel then it.riskLevel else highest) init) ∧
    (∀ it ∈ items, riskOrder it.riskLevel ≤ riskOrder (items.foldl (fun highest it =>
        if riskOrder highest < riskOrder it.riskLevel then it.riskLevel else highest) init)) ∧
    (items.foldl (fun highest it =>
        if riskOrder highest < riskOrder it.riskLevel then it.riskLevel else highest) init = init ∨
      ∃ it ∈ items, it.riskLevel = items.foldl (fun highest it =>
        if riskOrder highest < riskOrder it.riskLevel then it.riskLevel else highest) init) := by
  induction items generalizing init with
  | nil => exact ⟨Nat.le_refl _, by simp, Or.inl rfl⟩
  | cons x t ih =>
    have key : (x :: t).foldl (fun highest it =>
        if riskOrder highest < riskOrder it.riskLevel then it.riskLevel else highest) init
        = t.foldl (fun highest it =>
          if riskOrder highest < riskOrder it.riskLevel then it.riskLevel else highest)
          (if riskOrder init < riskOrder x.riskLevel then x.riskLevel else init) := rfl
    rw [key]
    obtain ⟨ih1, ih2, ih3⟩ :=
      ih (if riskOrder init < riskOrder x.riskLevel then x.riskLevel else init)
    have hstep : riskOrder init ≤
        riskOrder (if riskOrder init < riskOrder x.riskLevel then x.riskLevel else init) := by
      split <;> omega
    have hxstep : riskOrder x.riskLevel ≤
        riskOrder (if riskOrder init < riskOrder x.riskLevel then x.riskLevel else init) := by
      split <;> omega
    refine ⟨Nat.le_trans hstep ih1, ?_, ?_⟩
    · intro it hit
      rcases List.mem_cons.mp hit with he | hm
      · subst he
        exact Nat.le_trans hxstep ih1
      · exact ih2 it hm
    · rcases ih3 with h3 | ⟨it, hit, hit2⟩
      · rw [h3]
        split
        · exact Or.inr ⟨x, List.mem_cons_self x t, rfl⟩
        · exact Or.inl rfl
      · exact Or.inr ⟨it, List.mem_cons_of_mem x hit, hit2⟩

/-! ## Claims C3, C5, C6, C7 (script.js computations) -/

/-- C3.  `overallRisk` equals the maximum risk level (高 > 中 > 低)
among the `riskItems` — it bounds every item's level and is attained
by an item whenever the list is non-empty — and equals 低 for an empty
list; and every AIReview the generator produces computes `overallRisk`
from its own `riskItems` by exactly this maximum. -/
theorem c3_overall_risk (items : List RiskItem) (r : Nat) (pick : Nat → Nat)
    (mkId : Nat → String) :
    (∀ it ∈ items, riskOrder it.riskLevel ≤ riskOrder (computeOverallRisk items)) ∧
    (computeOverallRisk items = RiskLevel.low ∨
      ∃ it ∈ items, it.riskLevel = computeOverallRisk items) ∧
    (items = [] → computeOverallRisk items = RiskLevel.low) ∧
    (createDummyAIResults r pick mkId).overallRisk =
      computeOverallRisk (createDummyAIResults r pick mkId).riskItems := by
  obtain ⟨h1, h2, h3⟩ := foldl_risk_spec items .low
  exact ⟨h2, h3, fun he => by subst he; rfl, rfl⟩

/-- Witness for C3 at a concrete one-item list. -/
theorem c3_witness :
    riskOrder blankRiskItem.riskLevel ≤ riskOrder (computeOverallRisk [blankRiskItem]) :=
  (c3_overall_risk [blankRiskItem] 0 (fun _ => 0) (fun _ => "")).1 blankRiskItem
    (List.mem_singleton_self blankRiskItem)

/-- C5.  On an existing project, SubmitForDepartmentReview with
`aiReview` null leaves the whole collection (hence the project) exactly
as it was and alerts a failure; with `aiReview` non-null it replaces
only the first matching entry by the same record with `status :=
DEPT_REVIEWING` and the new `updatedAt` (every other field kept by the
record update), every other position of the collection unchanged. -/
theorem c5_submit_guard (s : List Project) (pid now : String) (p : Project)
    (hfind : findProject s pid = some p) :
    (p.aiReview = none → submitForDepartmentReview s pid now = (s, ["请先完成 AI 审查"])) ∧
    (p.aiReview ≠ none →
      ∃ i, ∃ hi : i < s.length, s.get ⟨i, hi⟩ = p ∧
        (∀ j, ∀ hj : j < s.length, j < i → (s.get ⟨j, hj⟩).id ≠ pid) ∧
        submitForDepartmentReview s pid now =
          (s.set i { p with status := Status.DEPT_REVIEWING, updatedAt := now },
            ["已提交至本单位审核人"]) ∧
        (s.set i { p with status := Status.DEPT_REVIEWING, updatedAt := now }).length = s.length ∧
        ∀ j, j ≠ i →
          (s.set i { p with status := Status.DEPT_REVIEWING, updatedAt := now })[j]? =
            s[j]?) := by
  constructor
  · intro hnone
    unfold submitForDepartmentReview
    rw [hfind]
    dsimp only
    rw [hnone]
  · intro hsome
    obtain ⟨i, hi, hget, _, hbefore, hupd⟩ := findProject_updateFirst_spec s pid p
      (fun q => { q with status := Status.DEPT_REVIEWING, updatedAt := now }) hfind
    refine ⟨i, hi, hget, hbefore, ?_, List.length_set s i _,
      fun j hj => List.getElem?_set_ne (fun he => hj he.symm)⟩
    cases hrev : p.aiReview with
    | none => exact absurd hrev hsome
    | some r =>
      unfold submitForDepartmentReview
      rw [hfind]
      dsimp only
      rw [hrev]
      dsimp only
      rw [hupd, hrev]

/-- Witness for C5: submitting a draft (no review yet) changes
nothing and alerts. -/
theorem c5_witness :
    submitForDepartmentReview
      [{ id := "P1", projectName := "n", policyTitle := "t", org := "", draftType := "",
         scope := "", releaseDate := "", isSecret := false, applyException := false,
         createdAt := "c", updatedAt := "c", status := Status.DRAFT, aiReview := none }]
      "P1" "now"
    = ([{ id := "P1", projectName := "n", policyTitle := "t", org := "", draftType := "",
          scope := "", releaseDate := "", isSecret := false, applyException := false,
          createdAt := "c", updatedAt := "c", status := Status.DRAFT, aiReview := none }],
       ["请先完成 AI 审查"]) :=
  (c5_submit_guard
    [{ id := "P1", projectName := "n", policyTitle := "t", org := "", draftType := "",
       scope := "", releaseDate := "", isSecret := false, applyException := false,
       createdAt := "c", updatedAt := "c", status := Status.DRAFT, aiReview := none }]
    "P1" "now"
    { id := "P1", projectName := "n", policyTitle := "t", org := "", draftType := "",
      scope := "", releaseDate := "", isSecret := false, applyException := false,
      createdAt := "c", updatedAt := "c", status := Status.DRAFT, aiReview := none }
    rfl).1 rfl

/-- C6.  SaveDispositions' actions computation is a per-key merge:
every form row with a chosen (non-empty) type maps its finding id to
exactly the disposition built from that row; a key no row sets (or
that only unset rows mention) keeps its previous binding; and running
the same form twice yields the identical actions map. -/
theorem c6_save_dispositions (a : List (String × Disposition)) (form : List ActionInput)
    (hnd : (form.map ActionInput.riskId).Nodup) :
    (∀ inp ∈ form, inp.type ≠ "" →
      lookupAction (mergeActions a form) inp.riskId =
        some { type := inp.type, desc := jsTrim inp.desc }) ∧
    (∀ k, (∀ inp ∈ form, inp.riskId = k → inp.type = "") →
      lookupAction (mergeActions a form) k = lookupAction a k) ∧
    mergeActions (mergeActions a form) form = mergeActions a form :=
  ⟨fun inp hin ht => mergeActions_lookup_set form a hnd inp hin ht,
   fun k hk => mergeActions_lookup_unset form a k hk,
   mergeActions_self form _ (fun inp hin ht => mergeActions_lookup_set form a hnd inp hin ht)⟩

/-- Witness for C6: one saved row, merged twice, gives the same map. -/
theorem c6_witness :
    mergeActions (mergeActions [] [{ riskId := "r1", type := "adopt", desc := "ok" }])
        [{ riskId := "r1", type := "adopt", desc := "ok" }] =
      mergeActions [] [{ riskId := "r1", type := "adopt", desc := "ok" }] :=
  (c6_save_dispositions [] [{ riskId := "r1", type := "adopt", desc := "ok" }] (by simp)).2.2

/-- C7, amended.  Every generated review has 2–4 findings, an empty
actions map, and for each position `i` the finding's id is the i-th
generated id, its category/analysis/suggestion/law-reference all come
from the pools at the single shared category index drawn for that
item, its risk level cycles 高, 中, 低 by position, and its excerpt
comes from the sample pool cycled **by position** (`i % 4`) — not from
the tuple of the category index (see the counterexample). -/
theorem c7_generator_shape (r : Nat) (pick : Nat → Nat) (mkId : Nat → String) :
    2 ≤ (createDummyAIResults r pick mkId).riskItems.length ∧
    (createDummyAIResults r pick mkId).riskItems.length ≤ 4 ∧
    (createDummyAIResults r pick mkId).actions = [] ∧
    ∀ i, i < (createDummyAIResults r pick mkId).riskItems.length →
      (createDummyAIResults r pick mkId).riskItems.getD i blankRiskItem =
        { id := mkId i,
          category := categories.getD (pick i % 4) "",
          suspectedText := sampleTexts.getD (i % 4) "",
          analysis := analysisSamples.getD (pick i % 4) "",
          riskLevel := riskLevelsCycle.getD (i % 3) RiskLevel.low,
          suggestedAdjustment := adjustmentSamples.getD (pick i % 4) "",
          lawReference := lawRefSamples.getD (pick i % 4) "" } := by
  have hlen : (createDummyAIResults r pick mkId).riskItems.length = r % 3 + 2 := by
    simp [createDummyAIResults]
  have hmod : r % 3 < 3 := Nat.mod_lt r (by omega)
  refine ⟨by omega, by omega, rfl, ?_⟩
  intro i hi
  rw [hlen] at hi
  show ((List.range (r % 3 + 2)).map _).getD i blankRiskItem = _
  rw [List.getD_eq_getElem?_getD, List.getElem?_map, List.getElem?_range hi]
  rfl

/-- Counterexample to C7 as stated: with category index 1 drawn for
the first item, its category, analysis, suggestion and law reference
come from tuple 1, but its excerpt is `sampleTexts` entry 0 (the item
position), which differs from tuple 1's excerpt. -/
theorem c7_counterexample :
    ((createDummyAIResults 0 (fun _ => 1) (fun _ => "R")).riskItems.getD 0
        blankRiskItem).category = categories.getD 1 "" ∧
    ((createDummyAIResults 0 (fun _ => 1) (fun _ => "R")).riskItems.getD 0
        blankRiskItem).analysis = analysisSamples.getD 1 "" ∧
    ((createDummyAIResults 0 (fun _ => 1) (fun _ => "R")).riskItems.getD 0
        blankRiskItem).suspectedText = sampleTexts.getD 0 "" ∧
    sampleTexts.getD 0 "" ≠ sampleTexts.getD 1 "" :=
  ⟨rfl, rfl, rfl, by decide⟩

/-! ## Claims C9 and C10 (error handling) -/

/-- C9, amended.  With an identifier not present in the collection:
the detail view (for a present, non-empty id) alerts `未找到该项目`;
SaveDispositions and SubmitForDepartmentReview terminate silently with
no state change and no message (they do not crash, but contrary to the
original claim they surface nothing — see the counterexample). -/
theorem c9_not_found (s : List Project) (pid : String) (form : List ActionInput)
    (now : String) (hne : pid ≠ "") (hfind : findProject s pid = none) :
    submitForDepartmentReview s pid now = (s, []) ∧
    saveRiskActions s pid form now = (s, []) ∧
    displayProjectDetailMsg s (some pid) = ["未找到该项目"] := by
  refine ⟨?_, ?_, ?_⟩
  · unfold submitForDepartmentReview
    rw [hfind]
  · unfold saveRiskActions
    rw [hfind]
  · unfold displayProjectDetailMsg
    dsimp only
    rw [if_neg hne, hfind]

/-- Witness for C9 on a concrete store and unknown id. -/
theorem c9_witness :
    submitForDepartmentReview [] "PX" "now" = ([], []) ∧
    saveRiskActions [] "PX" [] "now" = ([], []) ∧
    displayProjectDetailMsg [] (some "PX") = ["未找到该项目"] :=
  c9_not_found [] "PX" [] "now" (by decide) rfl

/-- Counterexample to C9 as stated: on an unknown id, both
SaveDispositions and SubmitForDepartmentReview produce **no**
user-visible message (empty alert list), while the claim requires one
for every identifier-taking operation. -/
theorem c9_counterexample :
    (submitForDepartmentReview [] "PX" "now").2 = [] ∧
    (saveRiskActions [] "PX" [] "now").2 = [] :=
  ⟨rfl, rfl⟩

/-- C10, amended.  `getProjects` is total and never throws: it yields
`[]` when the key is absent, when the stored text is empty, and when
the stored text fails to parse; but when the stored text parses, the
parsed value is returned as-is — it is a list for any stored JSON
array (in particular for everything `saveProjects` writes), yet a
stored non-array JSON text is passed through unchecked (see the
counterexample). -/
theorem c10_get_projects (st : Store) :
    (st "ai_projects" = none → getProjects st = Json.arr []) ∧
    (∀ raw, st "ai_projects" = some raw → raw = "" → getProjects st = Json.arr []) ∧
    (∀ raw, st "ai_projects" = some raw → jsonParse raw = none → getProjects st = Json.arr []) ∧
    (∀ raw v, st "ai_projects" = some raw → raw ≠ "" → jsonParse raw = some v →
      getProjects st = v) := by
  refine ⟨?_, ?_, ?_, ?_⟩
  · intro h; unfold getProjects; rw [h]
  · intro raw h he
    unfold getProjects
    rw [h]
    dsimp only
    rw [if_pos he]
  · intro raw h hp
    unfold getProjects
    rw [h]
    dsimp only
    by_cases he : raw = ""
    · rw [if_pos he]
    · rw [if_neg he, hp]
  · intro raw v h he hp
    unfold getProjects
    rw [h]
    dsimp only
    rw [if_neg he, hp]

/-- Witness for C10: an absent key reads as the empty collection, and
stored text that is not valid JSON also reads as the empty
collection. -/
theorem c10_witness :
    getProjects (fun _ => none) = Json.arr [] ∧
    getProjects (fun k => if k = "ai_projects" then some "[1," else none) = Json.arr [] :=
  ⟨(c10_get_projects (fun _ => none)).1 rfl,
   (c10_get_projects (fun k => if k = "ai_projects" then some "[1," else none)).2.2.1
     "[1," rfl rfl⟩

/-- Counterexample to C10 as stated: storing the text `5` makes
`getProjects` return the number 5, not a list, so reading the persisted
collection is not "a list for every stored value". -/
theorem c10_counterexample :
    getProjects (fun k => if k = "ai_projects" then some "5" else none) = Json.num 5 ∧
    (getProjects (fun k => if k = "ai_projects" then some "5" else none)).isArr = false :=
  ⟨rfl, rfl⟩

/-! ## Claim C2 (lifecycle invariant) -/

/-- C2.  In every collection reachable by the documented operations,
each project's `aiReview` is non-null exactly when its status is
`AI_COMPLETED`, `DEPT_REVIEWING` or `APPROVED` (the later-in-flow
statuses), and in particular `aiReview` is null whenever the status is
`DRAFT` or `AI_REVIEWING`. -/
theorem c2_lifecycle_invariant (s : List Project) (h : Reachable s) :
    ∀ p ∈ s, (p.aiReview ≠ none ↔
        (p.status = Status.AI_COMPLETED ∨ p.status = Status.DEPT_REVIEWING ∨
          p.status = Status.APPROVED)) ∧
      ((p.status = Status.DRAFT ∨ p.status = Status.AI_REVIEWING) → p.aiReview = none) := by
  have main : ∀ p ∈ s, (p.aiReview ≠ none ↔
      (p.status = Status.AI_COMPLETED ∨ p.status = Status.DEPT_REVIEWING ∨
        p.status = Status.APPROVED)) := by
    induction h with
    | init => intro p hp; simp at hp
    | step _ hstep ih =>
      cases hstep with
      | create form now newId s1 =>
        intro p hp
        unfold handleCreateProject at hp
        by_cases hv : jsTrim form.projectName = "" ∨ jsTrim form.policyTitle = ""
        · rw [if_pos hv] at hp
          exact ih p hp
        · rw [if_neg hv] at hp
          dsimp only at hp
          rcases List.mem_append.mp hp with h1 | h1
          · exact ih p h1
          · have he := List.mem_singleton.mp h1
            subst he
            exact ⟨fun hne => absurd rfl hne,
              fun hor => by rcases hor with h2 | h2 | h2 <;> exact Status.noConfusion h2⟩
      | startReview s1 pid now p0 hfind hno =>
        intro p hp
        rcases mem_updateFirst _ pid
            (fun q => { q with status := Status.AI_REVIEWING, updatedAt := now })
            p0 hfind p hp with h1 | h1
        · exact ih p h1
        · subst h1
          exact ⟨fun hne => absurd hno hne,
            fun hor => by rcases hor with h2 | h2 | h2 <;> exact Status.noConfusion h2⟩
      | completeReview s1 pid now p0 r hfind hst =>
        intro p hp
        rcases mem_updateFirst _ pid
            (fun q => { q with aiReview := some r, status := Status.AI_COMPLETED, updatedAt := now })
            p0 hfind p hp with h1 | h1
        · exact ih p h1
        · subst h1
          exact ⟨fun _ => Or.inl rfl, fun _ h2 => Option.noConfusion h2⟩
      | save s1 pid form now =>
        intro p hp
        unfold saveRiskActions at hp
        cases hfind : findProject _ pid with
        | none =>
          rw [hfind] at hp
          exact ih p hp
        | some p0 =>
          rw [hfind] at hp
          dsimp only at hp
          cases hrev : p0.aiReview with
          | none =>
            rw [hrev] at hp
            exact ih p hp
          | some r =>
            rw [hrev] at hp
            dsimp only at hp
            rcases mem_updateFirst _ pid
                (fun q => { q with aiReview := some { r with actions := mergeActions r.actions form }, updatedAt := now })
                p0 hfind p hp with h1 | h1
            · exact ih p h1
            · subst h1
              have hstat := (ih p0 (List.mem_of_find?_eq_some hfind)).mp
                (by rw [hrev]; exact fun h2 => Option.noConfusion h2)
              exact ⟨fun _ => hstat, fun _ h2 => Option.noConfusion h2⟩
      | submit s1 pid now =>
        intro p hp
        unfold submitForDepartmentReview at hp
        cases hfind : findProject _ pid with
        | none =>
          rw [hfind] at hp
          exact ih p hp
        | some p0 =>
          rw [hfind] at hp
          dsimp only at hp
          cases hrev : p0.aiReview with
          | none =>
            rw [hrev] at hp
            exact ih p hp
          | some r =>
            rw [hrev] at hp
            dsimp only at hp
            rcases mem_updateFirst _ pid
                (fun q => { q with status := Status.DEPT_REVIEWING, updatedAt := now })
                p0 hfind p hp with h1 | h1
            · exact ih p h1
            · subst h1
              exact ⟨fun _ => Or.inr (Or.inl rfl),
                fun _ h2 => by rw [hrev] at h2; exact Option.noConfusion h2⟩
  intro p hp
  refine ⟨main p hp, fun hst => ?_⟩
  by_contra hne
  rcases (main p hp).mp hne with h1 | h1 | h1 <;> rcases hst with h2 | h2 <;>
    (rw [h2] at h1; exact Status.noConfusion h1)

/-- Witness for C2: the collection after one creation is reachable,
and its single project (a fresh draft) has no review. -/
theorem c2_witness :
    ({ id := "P1", projectName := "demo", policyTitle := "doc", org := "", draftType := "",
       scope := "", releaseDate := "", isSecret := false, applyException := false,
       createdAt := "t", updatedAt := "t", status := Status.DRAFT,
       aiReview := none } : Project).aiReview = none :=
  ((c2_lifecycle_invariant _
      (Reachable.step Reachable.init
        (Step.create ⟨"demo", "doc", "", "", "", "", false, false⟩ "t" "P1" [])))
    { id := "P1", projectName := "demo", policyTitle := "doc", org := "", draftType := "",
      scope := "", releaseDate := "", isSecret := false, applyException := false,
      createdAt := "t", updatedAt := "t", status := Status.DRAFT, aiReview := none }
    (List.Mem.head _)).2 (Or.inl rfl)

/-- Witness for C7 at concrete draws: two items, category index 1,
first item's fields evaluated. -/
theorem c7_witness :
    (createDummyAIResults 0 (fun _ => 1) (fun _ => "R")).riskItems.getD 0 blankRiskItem =
      { id := "R",
        category := categories.getD 1 "",
        suspectedText := sampleTexts.getD 0 "",
        analysis := analysisSamples.getD 1 "",
        riskLevel := riskLevelsCycle.getD 0 RiskLevel.low,
        suggestedAdjustment := adjustmentSamples.getD 1 "",
        lawReference := lawRefSamples.getD 1 "" } :=
  (c7_generator_shape 0 (fun _ => 1) (fun _ => "R")).2.2.2 0 (by decide)

/-! ## Round-trip: numbers -/

theorem natOfDigits_append_one (ds : List Char) (c : Char) :
    natOfDigits (ds ++ [c]) = 10 * natOfDigits ds + digitVal c := by
  unfold natOfDigits
  rw [List.foldl_append]
  rfl

theorem natDigitsAux_spec (fuel : Nat) :
    ∀ n, n < fuel →
      (∀ c ∈ natDigitsAux fuel n, isDigitCh c = true) ∧
      natDigitsAux fuel n ≠ [] ∧
      natOfDigits (natDigitsAux fuel n) = n := by
  induction fuel with
  | zero => intro n hn; omega
  | succ f ih =>
    intro n hn
    rw [natDigitsAux]
    by_cases h10 : n < 10
    · rw [if_pos h10]
      refine ⟨?_, by simp, ?_⟩
      · intro c hc
        rw [List.mem_singleton.mp hc]
        exact isDigitCh_digitChar n h10
      · show natOfDigits ([] ++ [digitChar n]) = n
        rw [natOfDigits_append_one]
        have : natOfDigits [] = 0 := rfl
        rw [this, digitVal_digitChar n h10]
        omega
    · rw [if_neg h10]
      have hdiv : n / 10 < f := by omega
      obtain ⟨hall, hne, hval⟩ := ih (n / 10) hdiv
      have hm : n % 10 < 10 := Nat.mod_lt n (by omega)
      refine ⟨?_, by simp, ?_⟩
      · intro c hc
        rcases List.mem_append.mp hc with h1 | h1
        · exact hall c h1
        · rw [List.mem_singleton.mp h1]
          exact isDigitCh_digitChar _ hm
      · rw [natOfDigits_append_one, hval, digitVal_digitChar _ hm]
        omega

theorem natDigits_spec (n : Nat) :
    (∀ c ∈ natDigits n, isDigitCh c = true) ∧
    natDigits n ≠ [] ∧
    natOfDigits (natDigits n) = n :=
  natDigitsAux_spec (n + 1) n (Nat.lt_succ_self n)

theorem span_digits_append (ds rest : List Char) (hds : ∀ c ∈ ds, isDigitCh c = true)
    (hrest : NonDigitStart rest) :
    (ds ++ rest).takeWhile isDigitCh = ds ∧ (ds ++ rest).dropWhile isDigitCh = rest := by
  induction ds with
  | nil =>
    simp only [List.nil_append]
    cases rest with
    | nil => simp
    | cons c cs =>
      have := hrest c cs rfl
      rw [List.takeWhile_cons, List.dropWhile_cons, this]
      simp
  | cons d dt ih =>
    have hd : isDigitCh d = true := hds d (List.mem_cons_self d dt)
    obtain ⟨h1, h2⟩ := ih (fun c hc => hds c (List.mem_cons_of_mem d hc))
    rw [List.cons_append, List.takeWhile_cons, List.dropWhile_cons, hd]
    simp [h1, h2]

theorem parseNat_append (ds rest : List Char) (hds : ∀ c ∈ ds, isDigitCh c = true)
    (hne : ds ≠ []) (hrest : NonDigitStart rest) :
    parseNat (ds ++ rest) = some (natOfDigits ds, rest) := by
  obtain ⟨h1, h2⟩ := span_digits_append ds rest hds hrest
  unfold parseNat
  rw [h1, h2, if_neg (by simpa using hne)]

theorem isDigitCh_toNat (c : Char) (h : isDigitCh c = true) :
    48 ≤ c.toNat ∧ c.toNat ≤ 57 := by
  simpa [isDigitCh] using h

theorem digit_ne (c d : Char) (h : isDigitCh c = true) (hd : isDigitCh d = false) : c ≠ d := by
  intro he
  rw [he, hd] at h
  exact Bool.false_ne_true h

/-! ## Round-trip: strings -/

theorem hexVal_hexDigitChar (m : Nat) (h : m < 16) : hexVal (hexDigitChar m) = some m := by
  interval_cases m <;> decide

theorem parseStrAux_escape (l : List Char) (rest : List Char) : ∀ fuel, l.length + 1 ≤ fuel →
    parseStrAux fuel ((l.map escapeChar).flatten ++ ('"' :: rest)) = some (l, rest) := by
  induction l with
  | nil =>
    intro fuel hf
    cases fuel with
    | zero => omega
    | succ f => simp [parseStrAux]
  | cons c cs ih =>
    intro fuel hf
    cases fuel with
    | zero => omega
    | succ f =>
      have hih := ih f (by simp at hf ⊢; omega)
      rw [List.map_cons, List.flatten_cons, List.append_assoc]
      by_cases h1 : c = '"'
      · subst h1
        rw [show escapeChar '"' = ['\\', '"'] from rfl]
        simp [parseStrAux, hih]
      · by_cases h2 : c = '\\'
        · subst h2
          rw [show escapeChar '\\' = ['\\', '\\'] from rfl]
          simp [parseStrAux, hih]
        · by_cases h3 : c = '\x08'
          · subst h3
            rw [show escapeChar '\x08' = ['\\', 'b'] from rfl]
            simp [parseStrAux, hih]
          · by_cases h4 : c = '\t'
            · subst h4
              rw [show escapeChar '\t' = ['\\', 't'] from rfl]
              simp [parseStrAux, hih]
            · by_cases h5 : c = '\n'
              · subst h5
                rw [show escapeChar '\n' = ['\\', 'n'] from rfl]
                simp [parseStrAux, hih]
              · by_cases h6 : c = '\x0c'
                · subst h6
                  rw [show escapeChar '\x0c' = ['\\', 'f'] from rfl]
                  simp [parseStrAux, hih]
                · by_cases h7 : c = '\r'
                  · subst h7
                    rw [show escapeChar '\r' = ['\\', 'r'] from rfl]
                    simp [parseStrAux, hih]
                  · by_cases h8 : c.toNat < 32
                    · have hesc : escapeChar c = ['\\', 'u', '0', '0',
                          hexDigitChar (c.toNat / 16), hexDigitChar (c.toNat % 16)] := by
                        unfold escapeChar
                        rw [if_neg h1, if_neg h2, if_neg h3, if_neg h4, if_neg h5, if_neg h6,
                          if_neg h7, if_pos h8]
                      rw [hesc]
                      have hdiv : c.toNat / 16 < 16 := by omega
                      have hmod : c.toNat % 16 < 16 := by omega
                      simp [parseStrAux, hexVal_hexDigitChar _ hdiv,
                        hexVal_hexDigitChar _ hmod, hih,
                        show hexVal '0' = some 0 from by decide]
                      rw [show c.toNat / 16 * 16 + c.toNat % 16 = c.toNat from by omega]
                      exact Char.ofNat_toNat c
                    · have hesc : escapeChar c = [c] := by
                        unfold escapeChar
                        rw [if_neg h1, if_neg h2, if_neg h3, if_neg h4, if_neg h5, if_neg h6,
                          if_neg h7, if_neg h8]
                      rw [hesc]
                      simp [parseStrAux, h1, h2, h8, hih]

/-! ## Round-trip: head shapes and sizes -/

theorem natDigits_head (n : Nat) :
    ∃ c cs2, natDigits n = c :: cs2 ∧ isDigitCh c = true := by
  obtain ⟨hall, hne, _⟩ := natDigits_spec n
  cases h : natDigits n with
  | nil => exact absurd h hne
  | cons c cs2 => exact ⟨c, cs2, rfl, hall c (h ▸ List.mem_cons_self c cs2)⟩

theorem printJ_head (j : Json) :
    ∃ c cs2, (c ≠ ']' ∧ c ≠ '}' ∧ isWsChar c = false) ∧ printJ j = c :: cs2 := by
  cases j with
  | num n =>
    show ∃ c cs2, _ ∧ printInt n = c :: cs2
    unfold printInt
    by_cases hn : n < 0
    · rw [if_pos hn]
      refine ⟨'-', _, ⟨?_, ?_, ?_⟩, rfl⟩ <;> decide
    · rw [if_neg hn]
      obtain ⟨c, cs2, he, hd⟩ := natDigits_head n.natAbs
      refine ⟨c, cs2, ⟨?_, ?_, ?_⟩, he⟩
      · exact digit_ne c ']' hd (by decide)
      · exact digit_ne c '}' hd (by decide)
      · exact isWsChar_false_of_digit c hd
  | arr l =>
    cases l <;> (refine ⟨'[', _, ⟨?_, ?_, ?_⟩, rfl⟩ <;> decide)
  | obj m =>
    cases m <;> (refine ⟨'{', _, ⟨?_, ?_, ?_⟩, rfl⟩ <;> decide)
  | bool b =>
    cases b
    · refine ⟨'f', _, ⟨?_, ?_, ?_⟩, rfl⟩ <;> decide
    · refine ⟨'t', _, ⟨?_, ?_, ?_⟩, rfl⟩ <;> decide
  | null =>
    refine ⟨'n', _, ⟨?_, ?_, ?_⟩, rfl⟩ <;> decide
  | str s =>
    refine ⟨'"', _, ⟨?_, ?_, ?_⟩, rfl⟩ <;> decide

theorem skipWs_printJ_append (j : Json) (rest : List Char) :
    skipWs (printJ j ++ rest) = printJ j ++ rest := by
  obtain ⟨c, cs2, ⟨-, -, hw⟩, he⟩ := printJ_head j
  rw [he, List.cons_append, skipWs_cons_of_not c _ hw]

theorem headIs_printJ_append (j : Json) (rest : List Char) (d : Char)
    (hd : d = ']' ∨ d = '}') : headIs (printJ j ++ rest) d = false := by
  obtain ⟨c, cs2, ⟨h1, h2, -⟩, he⟩ := printJ_head j
  rw [he, List.cons_append]
  rcases hd with h | h <;> (subst h; simp [headIs]) <;> assumption

theorem jsize_pos (j : Json) : 1 ≤ jsize j := by
  cases j <;> simp [jsize] <;> omega

theorem escapeChar_length_pos (c : Char) : 1 ≤ (escapeChar c).length := by
  unfold escapeChar
  split_ifs <;> simp

theorem escape_flatten_length (l : List Char) :
    l.length ≤ ((l.map escapeChar).flatten).length := by
  induction l with
  | nil => simp
  | cons c cs ih =>
    rw [List.map_cons, List.flatten_cons, List.length_append, List.length_cons]
    have := escapeChar_length_pos c
    omega

theorem nonDigitStart_elems_tail (t : List Json) (rest : List Char) :
    NonDigitStart (printElemsTail t ++ (']' :: rest)) := by
  cases t with
  | nil =>
    intro c cs2 h
    rw [printElemsTail, List.nil_append] at h
    injection h with h1 _
    subst h1
    decide
  | cons w ws =>
    intro c cs2 h
    rw [printElemsTail, List.cons_append] at h
    injection h with h1 _
    subst h1
    decide

theorem nonDigitStart_members_tail (t : List (String × Json)) (rest : List Char) :
    NonDigitStart (printMembersTail t ++ ('}' :: rest)) := by
  cases t with
  | nil =>
    intro c cs2 h
    rw [printMembersTail, List.nil_append] at h
    injection h with h1 _
    subst h1
    decide
  | cons m ms =>
    intro c cs2 h
    rw [printMembersTail, List.cons_append] at h
    injection h with h1 _
    subst h1
    decide

/-! ## Round-trip: the main parse-of-print theorem -/

theorem parseStrAux_escapeStr (s : String) (rest : List Char) (fuel : Nat)
    (h : s.data.length + 1 ≤ fuel) :
    parseStrAux fuel (escapeStr s ++ ('"' :: rest)) = some (s.data, rest) :=
  parseStrAux_escape s.data rest fuel h

theorem parse_print_main (fuel : Nat) :
    (∀ j rest, jsize j ≤ fuel → NonDigitStart rest →
      parseVal fuel (printJ j ++ rest) = some (j, rest)) ∧
    (∀ v t rest, 1 + jsize v + jlistSize t ≤ fuel → NonDigitStart rest →
      parseElems fuel (printJ v ++ (printElemsTail t ++ (']' :: rest))) = some (v :: t, rest)) ∧
    (∀ k v t rest, 1 + jsize v + jmemSize t ≤ fuel → NonDigitStart rest →
      parseMembers fuel (printMember (k, v) ++ (printMembersTail t ++ ('}' :: rest))) =
        some ((k, v) :: t, rest)) := by
  induction fuel using Nat.strong_induction_on with
  | _ fuel ih =>
  refine ⟨?_, ?_, ?_⟩
  · -- parseVal on a printed value
    intro j rest hsz hrest
    obtain ⟨f, rfl⟩ : ∃ f, fuel = f + 1 := ⟨fuel - 1, by have := jsize_pos j; omega⟩
    cases j with
    | null =>
      rw [show printJ Json.null = ['n', 'u', 'l', 'l'] from rfl]
      simp [parseVal, skipWs, isWsChar]
    | bool b =>
      cases b with
      | true =>
        rw [show printJ (Json.bool true) = ['t', 'r', 'u', 'e'] from rfl]
        simp [parseVal, skipWs, isWsChar]
      | false =>
        rw [show printJ (Json.bool false) = ['f', 'a', 'l', 's', 'e'] from rfl]
        simp [parseVal, skipWs, isWsChar]
    | num n =>
      rw [show printJ (Json.num n) = printInt n from rfl]
      unfold printInt
      by_cases hn : n < 0
      · rw [if_pos hn]
        obtain ⟨hall, hne, hval⟩ := natDigits_spec n.natAbs
        rw [List.cons_append]
        simp only [parseVal, skipWs_cons_of_not '-' _ (by decide)]
        simp only [show (('-' : Char) = 'n') = False from by simp,
          show (('-' : Char) = 't') = False from by simp,
          show (('-' : Char) = 'f') = False from by simp,
          show (('-' : Char) = '"') = False from by simp,
          show (('-' : Char) = '[') = False from by simp,
          show (('-' : Char) = '{') = False from by simp, if_false, if_true, eq_self_iff_true]
        rw [parseNat_append _ _ hall hne hrest, hval]
        show some (Json.num (-(n.natAbs : Int)), rest) = some (Json.num n, rest)
        rw [show (-(n.natAbs : Int)) = n from by omega]
      · rw [if_neg hn]
        obtain ⟨hall, hne, hval⟩ := natDigits_spec n.natAbs
        cases hnd : natDigits n.natAbs with
        | nil => exact absurd hnd hne
        | cons c0 cs0 =>
          have hd0 : isDigitCh c0 = true := hall c0 (by rw [hnd]; exact List.mem_cons_self c0 cs0)
          rw [List.cons_append]
          simp only [parseVal, skipWs_cons_of_not c0 _ (isWsChar_false_of_digit c0 hd0)]
          simp only [digit_ne c0 'n' hd0 (by decide), digit_ne c0 't' hd0 (by decide),
            digit_ne c0 'f' hd0 (by decide), digit_ne c0 '"' hd0 (by decide),
            digit_ne c0 '[' hd0 (by decide), digit_ne c0 '{' hd0 (by decide),
            digit_ne c0 '-' hd0 (by decide), hd0, if_false, if_true, eq_self_iff_true]
          rw [show c0 :: (cs0 ++ rest) = (c0 :: cs0) ++ rest from rfl, ← hnd,
            parseNat_append _ _ hall hne hrest, hval]
          show some (Json.num ((n.natAbs : Int)), rest) = some (Json.num n, rest)
          rw [show ((n.natAbs : Int)) = n from by omega]
    | str s =>
      rw [show printJ (Json.str s) = '"' :: (escapeStr s ++ ['"']) from rfl]
      simp only [List.cons_append, List.append_assoc, List.singleton_append, List.nil_append]
      simp only [parseVal, skipWs_cons_of_not '"' _ (by decide)]
      simp only [show (('"' : Char) = 'n') = False from by simp,
        show (('"' : Char) = 't') = False from by simp,
        show (('"' : Char) = 'f') = False from by simp, if_false, if_true, eq_self_iff_true]
      rw [parseStrAux_escapeStr s rest _
        (by have := escape_flatten_length s.data
            simp only [List.length_append, List.length_cons]
            have h2 : (escapeStr s).length = ((s.data.map escapeChar).flatten).length := rfl
            omega)]
      rfl
    | arr l =>
      cases l with
      | nil =>
        rw [show printJ (Json.arr []) = ['[', ']'] from rfl]
        simp [parseVal, skipWs, isWsChar, headIs]
      | cons v t =>
        rw [show printJ (Json.arr (v :: t)) =
          '[' :: (printJ v ++ (printElemsTail t ++ [']'])) from rfl]
        simp only [List.cons_append, List.append_assoc, List.singleton_append, List.nil_append]
        simp only [parseVal, skipWs_cons_of_not '[' _ (by decide)]
        simp only [show (('[' : Char) = 'n') = False from by simp,
          show (('[' : Char) = 't') = False from by simp,
          show (('[' : Char) = 'f') = False from by simp,
          show (('[' : Char) = '"') = False from by simp, if_false, if_true, eq_self_iff_true]
        rw [skipWs_printJ_append v (printElemsTail t ++ (']' :: rest)),
          headIs_printJ_append v (printElemsTail t ++ (']' :: rest)) ']' (Or.inl rfl)]
        simp only [Bool.false_eq_true, if_false]
        have hsub : 1 + jsize v + jlistSize t ≤ f := by
          simp only [jsize, jlistSize] at hsz
          omega
        rw [(ih f (by omega)).2.1 v t rest hsub hrest]
        rfl
    | obj m =>
      cases m with
      | nil =>
        rw [show printJ (Json.obj []) = ['{', '}'] from rfl]
        simp [parseVal, skipWs, isWsChar, headIs]
      | cons kv t =>
        obtain ⟨k, v⟩ := kv
        rw [show printJ (Json.obj ((k, v) :: t)) =
          '{' :: (printMember (k, v) ++ (printMembersTail t ++ ['}'])) from rfl]
        simp only [List.cons_append, List.append_assoc, List.singleton_append, List.nil_append]
        simp only [parseVal, skipWs_cons_of_not '{' _ (by decide)]
        simp only [show (('{' : Char) = 'n') = False from by simp,
          show (('{' : Char) = 't') = False from by simp,
          show (('{' : Char) = 'f') = False from by simp,
          show (('{' : Char) = '"') = False from by simp,
          show (('{' : Char) = '[') = False from by simp, if_false, if_true, eq_self_iff_true]
        have hm : printMember (k, v) = '"' :: (escapeStr k ++ (['"', ':'] ++ printJ v)) := rfl
        have hskip : skipWs (printMember (k, v) ++ (printMembersTail t ++ ('}' :: rest))) =
            printMember (k, v) ++ (printMembersTail t ++ ('}' :: rest)) := by
          rw [hm, List.cons_append, skipWs_cons_of_not '"' _ (by decide)]
        have hhead : headIs (printMember (k, v) ++ (printMembersTail t ++ ('}' :: rest))) '}'
            = false := by
          rw [hm, List.cons_append]
          simp [headIs]
        rw [hskip, hhead]
        simp only [Bool.false_eq_true, if_false]
        have hsub : 1 + jsize v + jmemSize t ≤ f := by
          simp only [jsize, jmemSize] at hsz
          omega
        rw [(ih f (by omega)).2.2 k v t rest hsub hrest]
        rfl
  · -- parseElems on printed elements
    intro v t rest hsz hrest
    obtain ⟨f, rfl⟩ : ∃ f, fuel = f + 1 := ⟨fuel - 1, by have := jsize_pos v; omega⟩
    have hndv : NonDigitStart (printElemsTail t ++ (']' :: rest)) :=
      nonDigitStart_elems_tail t rest
    have hjv : jsize v ≤ f := by have := jsize_pos v; omega
    simp only [parseElems]
    rw [(ih f (by omega)).1 v (printElemsTail t ++ (']' :: rest)) hjv hndv]
    cases t with
    | nil =>
      rw [printElemsTail, List.nil_append]
      try dsimp only
      rw [skipWs_cons_of_not ']' _ (by decide)]
      rfl
    | cons w ws =>
      rw [printElemsTail, List.cons_append]
      try dsimp only
      rw [skipWs_cons_of_not ',' _ (by decide)]
      have hsub : 1 + jsize w + jlistSize ws ≤ f := by
        simp only [jlistSize] at hsz
        have := jsize_pos v
        omega
      show Option.map (fun p => (v :: p.1, p.2))
          (parseElems f ((printJ w ++ printElemsTail ws) ++ (']' :: rest)))
        = some (v :: w :: ws, rest)
      rw [List.append_assoc, (ih f (by omega)).2.1 w ws rest hsub hrest]
      rfl
  · -- parseMembers on printed members
    intro k v t rest hsz hrest
    obtain ⟨f, rfl⟩ : ∃ f, fuel = f + 1 := ⟨fuel - 1, by have := jsize_pos v; omega⟩
    have hm : printMember (k, v) = '"' :: (escapeStr k ++ (['"', ':'] ++ printJ v)) := rfl
    rw [hm]
    simp only [List.cons_append, List.append_assoc, List.singleton_append, List.nil_append]
    simp only [parseMembers, skipWs_cons_of_not '"' _ (by decide)]
    rw [parseStrAux_escapeStr k (':' :: (printJ v ++ (printMembersTail t ++ ('}' :: rest)))) _
      (by have := escape_flatten_length k.data
          simp only [List.length_append, List.length_cons]
          have h2 : (escapeStr k).length = ((k.data.map escapeChar).flatten).length := rfl
          omega)]
    have hcolon : skipWs (':' :: (printJ v ++ (printMembersTail t ++ ('}' :: rest))))
        = ':' :: (printJ v ++ (printMembersTail t ++ ('}' :: rest))) :=
      skipWs_cons_of_not ':' _ (by decide)
    have hndv : NonDigitStart (printMembersTail t ++ ('}' :: rest)) :=
      nonDigitStart_members_tail t rest
    have hjv : jsize v ≤ f := by have := jsize_pos v; omega
    have hvaleq := (ih f (by omega)).1 v (printMembersTail t ++ ('}' :: rest)) hjv hndv
    simp only [hcolon, hvaleq]
    cases t with
    | nil =>
      rw [printMembersTail, List.nil_append]
      try dsimp only
      rw [skipWs_cons_of_not '}' _ (by decide)]
      rfl
    | cons m ms =>
      obtain ⟨k2, v2⟩ := m
      rw [printMembersTail, List.cons_append]
      try dsimp only
      rw [skipWs_cons_of_not ',' _ (by decide)]
      have hsub : 1 + jsize v2 + jmemSize ms ≤ f := by
        simp only [jmemSize] at hsz
        have := jsize_pos v
        omega
      show Option.map (fun p => ((String.mk k.data, v) :: p.1, p.2))
          (parseMembers f ((printMember (k2, v2) ++ printMembersTail ms) ++ ('}' :: rest)))
        = some ((k, v) :: (k2, v2) :: ms, rest)
      rw [List.append_assoc, (ih f (by omega)).2.2 k2 v2 ms rest hsub hrest]
      rfl

/-! ## Round-trip: fuel bound and the top-level theorem -/

theorem jsize_le_aux (N : Nat) :
    (∀ j, jsize j ≤ N → jsize j ≤ 2 * (printJ j).length) ∧
    (∀ t, jlistSize t ≤ N → jlistSize t ≤ 2 * (printElemsTail t).length) ∧
    (∀ t, jmemSize t ≤ N → jmemSize t ≤ 2 * (printMembersTail t).length) := by
  induction N using Nat.strong_induction_on with
  | _ N ih =>
  refine ⟨?_, ?_, ?_⟩
  · intro j hN
    obtain ⟨c, cs2, -, he⟩ := printJ_head j
    cases j with
    | null => rw [he]; simp only [jsize, List.length_cons]; omega
    | bool b => rw [he]; simp only [jsize, List.length_cons]; omega
    | num n => rw [he]; simp only [jsize, List.length_cons]; omega
    | str s => rw [he]; simp only [jsize, List.length_cons]; omega
    | arr l =>
      cases l with
      | nil => simp [jsize, jlistSize, show printJ (Json.arr []) = ['[', ']'] from rfl]
      | cons v t =>
        simp only [jsize, jlistSize] at hN ⊢
        rw [show printJ (Json.arr (v :: t)) =
          '[' :: (printJ v ++ (printElemsTail t ++ [']'])) from rfl]
        simp only [List.length_cons, List.length_append]
        have hv := (ih (N - 1) (by omega)).1 v (by omega)
        have ht := (ih (N - 1) (by omega)).2.1 t (by omega)
        omega
    | obj m =>
      cases m with
      | nil => simp [jsize, jmemSize, show printJ (Json.obj []) = ['{', '}'] from rfl]
      | cons kv t =>
        obtain ⟨k, v⟩ := kv
        simp only [jsize, jmemSize] at hN ⊢
        rw [show printJ (Json.obj ((k, v) :: t)) =
          '{' :: (printMember (k, v) ++ (printMembersTail t ++ ['}'])) from rfl]
        rw [show printMember (k, v) = '"' :: (escapeStr k ++ (['"', ':'] ++ printJ v)) from rfl]
        simp only [List.length_cons, List.length_append]
        have hv := (ih (N - 1) (by omega)).1 v (by omega)
        have ht := (ih (N - 1) (by omega)).2.2 t (by omega)
        omega
  · intro t hN
    cases t with
    | nil => simp [jlistSize, printElemsTail]
    | cons w ws =>
      simp only [jlistSize] at hN ⊢
      rw [printElemsTail]
      simp only [List.length_cons, List.length_append]
      have hw := (ih (N - 1) (by omega)).1 w (by omega)
      have hws := (ih (N - 1) (by omega)).2.1 ws (by omega)
      omega
  · intro t hN
    cases t with
    | nil => simp [jmemSize, printMembersTail]
    | cons m ms =>
      obtain ⟨k2, v2⟩ := m
      simp only [jmemSize] at hN ⊢
      rw [printMembersTail]
      rw [show printMember (k2, v2) = '"' :: (escapeStr k2 ++ (['"', ':'] ++ printJ v2)) from rfl]
      simp only [List.length_cons, List.length_append]
      have hv := (ih (N - 1) (by omega)).1 v2 (by omega)
      have hms := (ih (N - 1) (by omega)).2.2 ms (by omega)
      omega

theorem jsize_le_print (j : Json) : jsize j ≤ 2 * (printJ j).length :=
  (jsize_le_aux (jsize j)).1 j (Nat.le_refl _)

/-- `JSON.parse` inverts `JSON.stringify` on every JSON value. -/
theorem jsonParse_jsonPrint (j : Json) : jsonParse (jsonPrint j) = some j := by
  unfold jsonParse jsonPrint
  have hlen : (String.mk (printJ j)).length = (printJ j).length := rfl
  have hdata : (String.mk (printJ j)).data = printJ j := rfl
  rw [hlen, hdata]
  have hmain := (parse_print_main (2 * (printJ j).length + 2)).1 j []
    (by have := jsize_le_print j; omega)
    (by intro c cs2 h; exact absurd h (by simp))
  rw [List.append_nil] at hmain
  rw [hmain]
  rfl

/-! ## Claim C8 (persistence round-trip) -/

/-- C8.  Saving any project collection to the store and reading it
back yields exactly the JSON image of the original records — the
reloaded value is the array of the stored records, byte-for-byte the
same data that was written. -/
theorem c8_round_trip (st : Store) (ps : List Project) :
    getProjects (saveProjects st ps) = Json.arr (ps.map projectToJson) := by
  have hne : jsonPrint (Json.arr (ps.map projectToJson)) ≠ "" := by
    obtain ⟨c, cs2, -, he⟩ := printJ_head (Json.arr (ps.map projectToJson))
    intro h
    rw [jsonPrint, he] at h
    have h2 := congrArg String.data h
    simp at h2
  unfold getProjects saveProjects
  rw [if_pos rfl]
  dsimp only
  rw [if_neg hne, jsonParse_jsonPrint]

/-- Witness for C8 at a concrete store and the empty collection. -/
theorem c8_witness :
    getProjects (saveProjects (fun _ => none) []) = Json.arr [] :=
  c8_round_trip (fun _ => none) []
